import Mathlib

/-!
# Verification of the acme-go library against its specification

This file gives a shallow embedding, in Lean 4, of the parts of the
acme-go library (an ACME v1-style certificate automation library in Go)
that the specification's claims are about, together with proofs or
refutations of those claims.

Embedding conventions:
* Go strings are Lean `String`s; Go byte slices are `List Nat`
  (each element a byte value).
* Go `float64` solver costs are embedded as `ℚ`: the code only compares
  costs with `<` starting from `math.Inf(1)`, which we render as an
  `Option ℚ` accumulator (`none` = positive infinity).  NaN behaviour is
  outside the embedding.
* Fallible Go functions return `Except`.
* The certificate-issuer orchestrator's side effects (solver `Cost`,
  `Solve`, the `stop` cleanup function, challenge validation, issuance)
  are recorded in an explicit event trace so that claims about "is
  called exactly once" / "is never called" become claims about event
  counts.  Go's `defer` of the mutable `errStop` variable is rendered by
  appending a `stopCall` event exactly on the paths on which the
  deferred call still points at the real `stop` function.
* Cancellation (`close(ci.cancel)` observed through `isCanceled` and
  `select`) is embedded as an optional cancellation instant `Option ℕ`
  against a logical clock that ticks at every check point.
* The unbounded polling loop `waitAuthorizations` is given fuel; fuel
  exhaustion is just one more error outcome and is irrelevant to the
  resource-cleanup claims.
-/

instance {ε α : Type} [DecidableEq ε] [DecidableEq α] : DecidableEq (Except ε α) :=
  fun x y =>
    match x, y with
    | .ok a, .ok b =>
      if h : a = b then .isTrue (by rw [h]) else .isFalse (fun he => h (by cases he; rfl))
    | .error a, .error b =>
      if h : a = b then .isTrue (by rw [h]) else .isFalse (fun he => h (by cases he; rfl))
    | .ok _, .error _ => .isFalse (by intro he; cases he)
    | .error _, .ok _ => .isFalse (by intro he; cases he)

namespace AcmeGo

/-! ## Protocol constants (src/protocol/protocol.go) -/

def StatusPending : String := "pending"
def StatusValid : String := "valid"
def StatusInvalid : String := "invalid"
def StatusUnknown : String := "unknown"

def ResourceNewReg : String := "new-reg"
def ResourceReg : String := "reg"

def JSON : String := "application/json"
def ProblemJSON : String := "application/problem+json"
def PKIXCert : String := "application/pkix-cert"

/-! ## Base64 encoding (Go encoding/base64, as used by the library)

`base64.URLEncoding.EncodeToString` (padded, URL alphabet) is what
`RawURLEncodeToString` in src/protocol/challenge.go wraps, and
`base64.StdEncoding` (padded, standard alphabet) is what Go's
`encoding/json` uses when marshalling a `[]byte` value. -/

def b64urlAlphabet : List Char :=
  "ABCDEFGHIJKLMNOPQRSTUVWXYZabcdefghijklmnopqrstuvwxyz0123456789-_".toList

def b64stdAlphabet : List Char :=
  "ABCDEFGHIJKLMNOPQRSTUVWXYZabcdefghijklmnopqrstuvwxyz0123456789+/".toList

def b64urlChar (n : Nat) : Char := b64urlAlphabet.getD n 'A'

def b64stdChar (n : Nat) : Char := b64stdAlphabet.getD n 'A'

/-- Base64 encoding of a byte sequence, parameterized by the alphabet
and whether `'='` padding characters are appended for a final group of
one or two bytes (Go `base64.Encoding.Encode` with / without padding). -/
def b64encodeWith (alpha : Nat → Char) (pad : Bool) : List Nat → List Char
  | b1 :: b2 :: b3 :: rest =>
      alpha (b1 / 4) :: alpha ((b1 % 4) * 16 + b2 / 16) ::
        alpha ((b2 % 16) * 4 + b3 / 64) :: alpha (b3 % 64) ::
        b64encodeWith alpha pad rest
  | [b1, b2] =>
      alpha (b1 / 4) :: alpha ((b1 % 4) * 16 + b2 / 16) ::
        alpha ((b2 % 16) * 4) :: (if pad then ['='] else [])
  | [b1] =>
      alpha (b1 / 4) :: alpha ((b1 % 4) * 16) ::
        (if pad then ['=', '='] else [])
  | [] => []

/-- `base64.URLEncoding.EncodeToString` (padded). -/
def base64URLEncodeToString (bs : List Nat) : String :=
  String.mk (b64encodeWith b64urlChar true bs)

/-- `base64.StdEncoding` as used by `encoding/json` for `[]byte`. -/
def base64StdEncodeToString (bs : List Nat) : String :=
  String.mk (b64encodeWith b64stdChar true bs)

/-- `strings.TrimRight(s, "=")`: drop every trailing `'='`. -/
def trimRightEq (s : String) : String :=
  String.mk ((s.toList.reverse.dropWhile (· = '=')).reverse)

/-- `RawURLEncodeToString` (src/protocol/challenge.go): padded URL-safe
base64, then trailing `'='` stripped. -/
def RawURLEncodeToString (bs : List Nat) : String :=
  trimRightEq (base64URLEncodeToString bs)

/-- `KeyAuthz` (src/protocol/challenge.go).  The RFC 7638 SHA-256
thumbprint computation lives in the external JOSE library; the claim
conditions on it succeeding, so the embedding takes the thumbprint
bytes as input and covers the remaining computation of `KeyAuthz`. -/
def KeyAuthz (tok : String) (thumbprint : List Nat) : String :=
  tok ++ "." ++ RawURLEncodeToString thumbprint

/-- Spec-side definition for the refinement claim C8: unpadded
("raw") base64url encoding, written directly without going through
padding and trimming. -/
def base64URLRawSpec (bs : List Nat) : String :=
  String.mk (b64encodeWith b64urlChar false bs)

/-- Number of `'='` padding characters the padded base64 encoding of a
byte sequence of this shape carries. -/
def b64padLen : List Nat → Nat
  | _ :: _ :: _ :: rest => b64padLen rest
  | [_, _] => 1
  | [_] => 2
  | [] => 0

/-! ## Client nonce stack (src/protocol/httpclient.go) -/

inductive NonceErr where
  | noNonce
  deriving DecidableEq

/-- `nonceStack` (src/protocol/httpclient.go): a slice of nonces. -/
structure nonceStack where
  ns : List String
  deriving DecidableEq

namespace nonceStack

/-- `(*nonceStack).add`: append the nonce at the end of the slice. -/
def add (s : nonceStack) (n : String) : nonceStack :=
  ⟨s.ns ++ [n]⟩

/-- `(*nonceStack).Nonce`: pop the nonce at the end of the slice, or
fail with `ErrNoNonce` when the slice is empty. -/
def Nonce (s : nonceStack) : Except NonceErr (String × nonceStack) :=
  match s.ns.getLast? with
  | none => .error .noNonce
  | some n => .ok (n, ⟨s.ns.dropLast⟩)

end nonceStack

/-! ## Registration requests (src/protocol/client.go, unnamed/part_008)

`jose.JSONWebKey` is an external JOSE type; the client code only tests
the `Key` pointer for `nil`, so the embedding keeps it abstract as an
`Option Nat`.  `Poster.Post` performs network I/O; the embedding takes
the result the poster would produce and additionally reports whether
the poster was invoked at all. -/

structure Registration where
  Resource : String
  Key : Option Nat
  ContactURIs : List String
  AgreementURI : String
  AuthorizationsURI : String
  CertificatesURI : String
  deriving DecidableEq

inductive RegErr where
  | invalidResource (r : String)
  | keyPresent
  | authorizationsURIPresent
  | certificatesURIPresent
  | postFailed (n : Nat)
  deriving DecidableEq

/-- `PostRegistration` (src/protocol/client.go).  `postResult` is the
outcome `p.Post` would produce if invoked; the second component of the
result records whether `p.Post` was invoked. -/
def PostRegistration (postResult : Except RegErr Registration)
    (req : Registration) : Except RegErr Registration × Bool :=
  if req.Resource ≠ ResourceNewReg ∧ req.Resource ≠ ResourceReg then
    (.error (.invalidResource req.Resource), false)
  else if req.Key.isSome then
    (.error .keyPresent, false)
  else if req.AuthorizationsURI ≠ "" then
    (.error .authorizationsURIPresent, false)
  else if req.CertificatesURI ≠ "" then
    (.error .certificatesURIPresent, false)
  else
    (postResult, true)

/-! ## Server dispatch (unnamed/part_010 `HTTPDispatcher.serve`,
unnamed/part_012 `writeResponse` / `encodeBody`)

The dispatcher's `serve` validates the method and `Accept` header and
then runs the GET or POST handler; `writeResponse` encodes the handler
result according to the request's `Accept` header.  The embedding keeps
the handler outcomes abstract (they come from user code), and splits
`serve` into a branch decision (`serveOutcome`) and the rendering of
each branch into an HTTP response (`renderOutcome`), mirroring the
`writeError` / `writeResponse` calls of the source. -/

/-- A value the server hands to `writeResponse`: `GetCertificate`
produces a `[]byte`; every other handler produces a JSON-marshalable
resource that we keep abstract by its JSON rendering. -/
inductive RespValue where
  | byteSlice (bs : List Nat)
  | jsonValue (rendered : String)
  deriving DecidableEq

/-- An HTTP response body: JSON-ish text or raw bytes. -/
inductive Body where
  | text (s : String)
  | raw (bs : List Nat)
  | empty
  deriving DecidableEq

inductive EncodeErr where
  | unhandledContentType (ct : String)
  | notByteSlice
  deriving DecidableEq

/-- `encodeBody` (unnamed/part_012): JSON / problem+json marshal via
`encoding/json` (a `[]byte` marshals to a quoted standard-base64 string
and `json.Encoder.Encode` appends a newline); `application/pkix-cert`
writes the raw bytes and rejects non-byte values; anything else is an
unhandled content type. -/
def encodeBody (contentType : String) (v : RespValue) : Except EncodeErr Body :=
  if contentType = JSON ∨ contentType = ProblemJSON then
    match v with
    | .byteSlice bs => .ok (.text ("\"" ++ base64StdEncodeToString bs ++ "\"\n"))
    | .jsonValue s => .ok (.text (s ++ "\n"))
  else if contentType = PKIXCert then
    match v with
    | .byteSlice bs => .ok (.raw bs)
    | .jsonValue _ => .error .notByteSlice
  else
    .error (.unhandledContentType contentType)

/-- The `HTTPResponse` metadata a handler returns: a status code
(0 meaning "unset", rendered as 200 by `net/http`). -/
structure HTTPResponse where
  StatusCode : Nat
  deriving DecidableEq

/-- A server error as produced by `serverErrorf`: an HTTP status code
plus a problem document (abstracted to its type/detail being
irrelevant for the claims). -/
structure ServerError where
  StatusCode : Nat
  deriving DecidableEq

/-- The final HTTP response the dispatcher writes. -/
structure HTTPReply where
  status : Nat
  contentType : String
  body : Body
  deriving DecidableEq

/-- Which branch of `HTTPDispatcher.serve` produced the reply. -/
inductive ServeOutcome where
  | headOk
  | methodNotAllowed
  | notAcceptable (declared got : String)
  | readRequestFailed (e : ServerError)
  | handlerFailed (e : ServerError)
  | handlerOk (v : Option RespValue) (hresp : HTTPResponse)
  deriving DecidableEq

/-- One endpoint as wired up by a `Serve*` method: the declared accept
content type, and the GET / POST handlers (each `none` when the
endpoint does not support the method).  `readRequest` (JWS + nonce
verification) is external to the dispatch logic under test and is
abstracted by its outcome. -/
structure Endpoint where
  declared : String
  get : Option (Except ServerError (Option RespValue × HTTPResponse))
  post : Option (Except ServerError (Option RespValue × HTTPResponse))
  readRequest : Except ServerError Unit

structure Request where
  method : String
  accept : Option String

/-- `r.Header.Get("Accept")`: the empty string when the header is absent. -/
def headerGet (accept : Option String) : String := accept.getD ""

/-- The branch structure of `HTTPDispatcher.serve` (unnamed/part_010
lines 144-193). -/
def serveOutcome (ep : Endpoint) (r : Request) : ServeOutcome :=
  if r.method = "HEAD" then
    .headOk
  else if r.method = "GET" then
    match ep.get with
    | none => .methodNotAllowed
    | some handler =>
      if ep.declared ≠ "*/*" ∧ headerGet r.accept ≠ ep.declared then
        .notAcceptable ep.declared (headerGet r.accept)
      else
        match handler with
        | .error e => .handlerFailed e
        | .ok (v, hresp) => .handlerOk v hresp
  else if r.method = "POST" then
    match ep.post with
    | none => .methodNotAllowed
    | some handler =>
      if ep.declared ≠ "*/*" ∧ headerGet r.accept ≠ ep.declared then
        .notAcceptable ep.declared (headerGet r.accept)
      else
        match ep.readRequest with
        | .error e => .readRequestFailed e
        | .ok _ =>
          match handler with
          | .error e => .handlerFailed e
          | .ok (v, hresp) => .handlerOk v hresp
  else
    .methodNotAllowed

/-- `writeError` (unnamed/part_012): problem+json body with the server
error's status code. -/
def writeError (e : ServerError) : HTTPReply :=
  ⟨e.StatusCode, ProblemJSON, .text "problem"⟩

/-- `writeResponse` (unnamed/part_012) for a request that reached a
handler: content type echoes the request's `Accept`; a zero handler
status renders as 200; an encoding failure turns into `writeError`
when no status was written yet, and otherwise into an empty body. -/
def writeResponse (reqAccept : String) (v : Option RespValue)
    (hresp : HTTPResponse) : HTTPReply :=
  match v with
  | none => ⟨if hresp.StatusCode = 0 then 200 else hresp.StatusCode, "", .empty⟩
  | some v =>
    match encodeBody reqAccept v with
    | .ok b => ⟨if hresp.StatusCode = 0 then 200 else hresp.StatusCode, reqAccept, b⟩
    | .error _ =>
      if hresp.StatusCode = 0 then
        writeError ⟨500⟩
      else
        ⟨hresp.StatusCode, reqAccept, .empty⟩

/-- Rendering of each `serve` branch into the written HTTP reply. -/
def renderOutcome (reqAccept : String) (o : ServeOutcome) : HTTPReply :=
  match o with
  | .headOk => ⟨200, "", .empty⟩
  | .methodNotAllowed => writeError ⟨405⟩
  | .notAcceptable _ _ => writeError ⟨406⟩
  | .readRequestFailed e => writeError e
  | .handlerFailed e => writeError e
  | .handlerOk v hresp => writeResponse reqAccept v hresp

/-- `HTTPDispatcher.serve`, composed. -/
def serve (ep : Endpoint) (r : Request) : HTTPReply :=
  renderOutcome (headerGet r.accept) (serveOutcome ep r)

/-- The endpoint `ServeCert` wires up (unnamed/part_010 lines 79-85):
declared content type `JSON`, GET handler `d.s.GetCertificate`
(producing DER bytes `der` and metadata `hresp`), no POST handler. -/
def ServeCertEndpoint (getResult : Except ServerError (List Nat × HTTPResponse)) :
    Endpoint :=
  { declared := JSON
    get := some (getResult.map fun p => (some (.byteSlice p.1), p.2))
    post := none
    readRequest := .ok () }

/-! ## Certificate issuer (unnamed/part_004)

The orchestrator `CertificateIssuer.AuthorizeAndIssue` and its helpers
`authorizeIdentities`, `bestChallenges`, `bestCombination`,
`startSolver`, `waitAuthorizations`, `Cancel`, `isCanceled`.

External collaborators are embedded as follows:
* CSR parsing (`crypto/x509`) is out of scope per the spec; the deduped
  identifier-name list (subject CN plus DNS SANs, deduplicated — its
  iteration order comes from a Go map and is arbitrary) is taken as the
  input `names`.
* The `IssuingAccount` capability set is a structure of result
  functions; the fetch of an authorization may depend on the logical
  clock so that polling can observe state changes.
* The `Solver` capability set is a structure; `Solve`'s returned `stop`
  function is not a value of the model — invoking it is recorded as a
  `stopCall` trace event instead.
* `float64` costs are embedded as `ℚ`; the `math.Inf(1)` best-cost
  sentinel of `bestCombination` becomes an `Option` accumulator. -/

/-- A challenge as the issuer sees it (`protocol.Challenge` interface:
`GetType`, `GetURI`, `GetStatus`). -/
structure Challenge where
  ctype : String
  uri : String
  status : String
  deriving DecidableEq, Inhabited

/-- A challenge response; opaque to the orchestrator. -/
structure Response where
  id : Nat
  deriving DecidableEq, Inhabited

/-- `acme.Authorization` (unnamed/part_000) restricted to the fields the
issuer reads: status, identifier display name, URI, retry delay, the
embedded `protocol.Authorization`'s challenges and combinations. -/
structure Authorization where
  status : String
  identifier : String
  uri : String
  retryAfter : Nat
  challenges : List Challenge
  combinations : List (List Nat)
  deriving DecidableEq, Inhabited

/-- `acme.Certificate` (unnamed/part_000), abstracted. -/
structure Certificate where
  bytes : List Nat
  deriving DecidableEq, Inhabited

/-- Errors of the issuance orchestration.  `ext` stands for an error
produced by an external collaborator (account operation, solver). -/
inductive Err where
  | canceled
  | unsolvable
  | authzInvalid (name : String)
  | unknownStatus (name : String) (st : String)
  | solverBug (nChallenges nResponses : Nat)
  | challengeFailed (ch : Challenge)
  | authzWaitFailed (a : Authorization)
  | authorizationError (e : Err) (as : List Authorization)
  | fuelExhausted
  | ext (n : Nat)
  deriving DecidableEq, Inhabited

/-- Trace events recording the orchestrator's calls into the solver and
the issuing account. -/
inductive Event where
  | authorizeCall (name : String)
  | costCall (cs : List Challenge)
  | solveCall (cs : List Challenge)
  | stopCall
  | validateCall (uri : String)
  | fetchCall (uri : String)
  | issueCall
  deriving DecidableEq

def Event.isStopCall : Event → Bool
  | .stopCall => true
  | _ => false

/-- Calls into the solver or the certificate-issuance operation. -/
def Event.isSolverOrIssueCall : Event → Bool
  | .costCall _ => true
  | .solveCall _ => true
  | .stopCall => true
  | .issueCall => true
  | _ => false

/-- Number of `stop` invocations recorded in a trace. -/
def stopCount (tr : List Event) : Nat := tr.countP Event.isStopCall

/-- Number of solver invocations (cost, solve, stop) and issuance
requests recorded in a trace. -/
def solverIssueCount (tr : List Event) : Nat :=
  tr.countP Event.isSolverOrIssueCall

/-- The `Solver` capability set (unnamed/part_004).  Costs are `ℚ`;
`Solve` yields the responses (its `stop` function is modelled by trace
events at the call sites). -/
structure Solver where
  Cost : List Challenge → Except Err ℚ
  Solve : List Challenge → Except Err (List Response)

/-- The `IssuingAccount` capability set (unnamed/part_004).  The
`Authorization` fetch takes the logical clock so a poll can observe a
different state on each attempt; `IssueCertificate`'s CSR argument is
fixed for the whole run and therefore omitted. -/
structure IssuingAccount where
  AuthorizeIdentity : String → Except Err Authorization
  FetchAuthorization : Nat → String → Except Err Authorization
  ValidateChallenge : String → Response → Except Err Challenge
  IssueCertificate : Except Err Certificate

/-- `isCanceled` against the logical clock: the cancel channel is
closed from instant `c` on (`none` = never canceled). -/
def isCanceled (cancelAt : Option Nat) (t : Nat) : Bool :=
  match cancelAt with
  | none => false
  | some c => c ≤ t

/-- The loop body of `authorizeIdentities` (unnamed/part_004 lines
107-132): per name, check cancellation, probe the authorization, then
classify its status (pending → collect, invalid → fail naming the
identifier, valid → skip, anything else → fail). -/
def authorizeIdentitiesGo (ia : IssuingAccount) (cancelAt : Option Nat) :
    List String → List Authorization → Nat →
    Except Err (List Authorization) × List Event × Nat
  | [], acc, t => (.ok acc, [], t)
  | n :: rest, acc, t =>
    if isCanceled cancelAt t then
      (.error .canceled, [], t + 1)
    else
      match ia.AuthorizeIdentity n with
      | .error e => (.error e, [.authorizeCall n], t + 1)
      | .ok a =>
        if a.status = StatusPending then
          let r := authorizeIdentitiesGo ia cancelAt rest (acc ++ [a]) (t + 1)
          (r.1, .authorizeCall n :: r.2.1, r.2.2)
        else if a.status = StatusInvalid then
          (.error (.authzInvalid n), [.authorizeCall n], t + 1)
        else if a.status = StatusValid then
          let r := authorizeIdentitiesGo ia cancelAt rest acc (t + 1)
          (r.1, .authorizeCall n :: r.2.1, r.2.2)
        else
          (.error (.unknownStatus n a.status), [.authorizeCall n], t + 1)

/-- `authorizeIdentities` (unnamed/part_004 lines 94-135) on the
deduplicated name list. -/
def authorizeIdentities (ia : IssuingAccount) (cancelAt : Option Nat)
    (names : List String) (t : Nat) :
    Except Err (List Authorization) × List Event × Nat :=
  authorizeIdentitiesGo ia cancelAt names [] t

/-- The challenges selected by one combination: `a.Challenges[ci]` for
each index (out-of-range indices, a panic in Go, yield the default). -/
def combChallenges (a : Authorization) (cis : List Nat) : List Challenge :=
  cis.map fun ci => a.challenges.getD ci default

/-- The loop of `bestCombination` (unnamed/part_004 lines 160-176):
evaluate each combination's cost, remember errors, keep the strictly
cheapest combination seen so far (`none` = the `math.Inf(1)` start). -/
def bestCombinationGo (s : Solver) (a : Authorization) :
    List (List Nat) → List Err → Option (ℚ × List Challenge) →
    Except Err (List Challenge) × List Event
  | [], errs, best =>
    (match best with
     | some (_, cs) => .ok cs
     | none =>
       match errs.getLast? with
       | some e => .error e
       | none => .error .unsolvable,
     [])
  | cis :: rest, errs, best =>
    let cs := combChallenges a cis
    match s.Cost cs with
    | .error e =>
      let r := bestCombinationGo s a rest (errs ++ [e]) best
      (r.1, .costCall cs :: r.2)
    | .ok cost =>
      let takeIt : Bool :=
        match best with
        | none => true
        | some (b, _) => cost < b
      let best' := if takeIt then some (cost, cs) else best
      let r := bestCombinationGo s a rest errs best'
      (r.1, .costCall cs :: r.2)

/-- `bestCombination` (unnamed/part_004 lines 155-186). -/
def bestCombination (s : Solver) (a : Authorization) :
    Except Err (List Challenge) × List Event :=
  bestCombinationGo s a a.combinations [] none

/-- The per-authorization loop of `bestChallenges`. -/
def bestChallengesGo (s : Solver) :
    List Authorization → List Challenge →
    Except Err (List Challenge) × List Event
  | [], acc =>
    -- The combined-cost check on the concatenation of all selections.
    (match s.Cost acc with
     | .ok _ => .ok acc
     | .error e => .error e,
     [.costCall acc])
  | a :: rest, acc =>
    match bestCombination s a with
    | (.error e, ev) => (.error e, ev)
    | (.ok cs, ev) =>
      let r := bestChallengesGo s rest (acc ++ cs)
      (r.1, ev ++ r.2)

/-- `bestChallenges` (unnamed/part_004 lines 138-151). -/
def bestChallenges (s : Solver) (as : List Authorization) :
    Except Err (List Challenge) × List Event :=
  bestChallengesGo s as []

/-- The notification loop of `startSolver` (unnamed/part_004 lines
204-216): per selected challenge, check cancellation, post the
response, fail when the returned challenge is already invalid. -/
def notifyLoop (ia : IssuingAccount) (cancelAt : Option Nat) :
    List (Challenge × Response) → Nat →
    Except Err Unit × List Event × Nat
  | [], t => (.ok (), [], t)
  | (ch, resp) :: rest, t =>
    if isCanceled cancelAt t then
      (.error .canceled, [], t + 1)
    else
      match ia.ValidateChallenge ch.uri resp with
      | .error e => (.error e, [.validateCall ch.uri], t + 1)
      | .ok ch2 =>
        if ch2.status = StatusInvalid then
          (.error (.challengeFailed ch2), [.validateCall ch.uri], t + 1)
        else
          let r := notifyLoop ia cancelAt rest (t + 1)
          (r.1, .validateCall ch.uri :: r.2.1, r.2.2)

/-- `startSolver` (unnamed/part_004 lines 189-220).  When `Solve`
fails, its `stop` is never touched.  When `Solve` succeeds, the source
installs `errStop := stop; defer errStop()` and only neutralizes
`errStop` on the success exit, so every error exit after a successful
`Solve` (length mismatch, cancellation, validation failure, invalid
challenge) invokes `stop` exactly once — rendered as the `stopCall`
event appended on the error branches.  On success no `stopCall` is
recorded here: the live `stop` is handed to the caller. -/
def startSolver (ia : IssuingAccount) (cancelAt : Option Nat) (s : Solver)
    (cs : List Challenge) (t : Nat) :
    Except Err Unit × List Event × Nat :=
  match s.Solve cs with
  | .error e => (.error e, [.solveCall cs], t)
  | .ok resps =>
    if resps.length ≠ cs.length then
      (.error (.solverBug cs.length resps.length), [.solveCall cs, .stopCall], t)
    else
      match notifyLoop ia cancelAt (cs.zip resps) t with
      | (.error e, ev, t2) => (.error e, .solveCall cs :: (ev ++ [.stopCall]), t2)
      | (.ok _, ev, t2) => (.ok (), .solveCall cs :: ev, t2)

/-- `waitAuthorizations` (unnamed/part_004 lines 223-255): treat the
pending authorizations as a stack; fetch the top; pop on valid, fail on
invalid; then sleep on a select between the retry timer and the cancel
channel.  The Go loop is unbounded; `fuel` bounds the modelled run, and
running out of fuel is just one more error outcome. -/
def waitAuthorizations (ia : IssuingAccount) (cancelAt : Option Nat) :
    Nat → List Authorization → Nat →
    Except Err Unit × List Event × Nat
  | 0, _, t => (.error .fuelExhausted, [], t)
  | fuel + 1, as, t =>
    match as.getLast? with
    | none => (.ok (), [], t)
    | some top =>
      if isCanceled cancelAt t then
        (.error .canceled, [], t + 1)
      else
        match ia.FetchAuthorization (t + 1) top.uri with
        | .error e => (.error e, [.fetchCall top.uri], t + 1)
        | .ok a =>
          if a.status = StatusInvalid then
            (.error (.authzWaitFailed a), [.fetchCall top.uri], t + 1)
          else
            let as2 := if a.status = StatusValid then as.dropLast else as
            -- The select between `time.After(a.RetryAfter)` and the
            -- cancel channel: the cancel branch fires when the channel
            -- is closed by the end of the sleep.
            if isCanceled cancelAt (t + 2) then
              (.error .canceled, [.fetchCall top.uri], t + 2)
            else
              let r := waitAuthorizations ia cancelAt fuel as2 (t + 2)
              (r.1, .fetchCall top.uri :: r.2.1, r.2.2)

/-- `CertificateIssuer.AuthorizeAndIssue` (unnamed/part_004 lines
65-89): probe the authorizations; when some are pending, select the
cheapest challenges (failures wrapped in an `AuthorizationError`),
start the solver, `defer stop()`, wait for the authorizations, and
finally issue.  The deferred `stop()` runs on every exit taken after
`startSolver` succeeded — rendered as the trailing `stopCall` event on
those paths. -/
def AuthorizeAndIssue (ia : IssuingAccount) (s : Solver)
    (cancelAt : Option Nat) (names : List String) (fuel : Nat) :
    Except Err Certificate × List Event :=
  match authorizeIdentities ia cancelAt names 0 with
  | (.error e, ev, _) => (.error e, ev)
  | (.ok as, ev1, t1) =>
    if as.isEmpty then
      (ia.IssueCertificate, ev1 ++ [.issueCall])
    else
      match bestChallenges s as with
      | (.error e, ev2) => (.error (.authorizationError e as), ev1 ++ ev2)
      | (.ok cs, ev2) =>
        match startSolver ia cancelAt s cs t1 with
        | (.error e, ev3, _) => (.error e, ev1 ++ ev2 ++ ev3)
        | (.ok _, ev3, t2) =>
          match waitAuthorizations ia cancelAt fuel as t2 with
          | (.error e, ev4, _) =>
            (.error e, ev1 ++ ev2 ++ ev3 ++ ev4 ++ [.stopCall])
          | (.ok _, ev4, _) =>
            (ia.IssueCertificate,
             ev1 ++ ev2 ++ ev3 ++ ev4 ++ [.issueCall, .stopCall])

/-! ## Cancel (unnamed/part_004 lines 259-271)

`Cancel` is `close(ci.cancel)` on the issuer's cancel channel.  In Go,
closing an already-closed channel panics; the embedding makes the
panic explicit. -/

inductive GoPanic where
  | closeOfClosedChannel
  deriving DecidableEq

/-- The issuer's cancel channel: only its closedness is observable. -/
structure CancelChan where
  closed : Bool
  deriving DecidableEq

/-- `NewCertificateIssuer` creates the channel open. -/
def newCancelChan : CancelChan := ⟨false⟩

/-- `CertificateIssuer.Cancel`: `close(ci.cancel)`.  Go's `close`
panics when the channel is already closed. -/
def Cancel (c : CancelChan) : Except GoPanic CancelChan :=
  if c.closed then .error .closeOfClosedChannel else .ok ⟨true⟩

/-- `CertificateIssuer.isCanceled`: non-blocking receive on the cancel
channel — true exactly when the channel is closed. -/
def isCanceledChan (c : CancelChan) : Bool := c.closed

/-- The authorizations that `authorizeIdentities` collects when every
probe succeeds with a pending or valid status: the pending ones, in
probe order. -/
def pendingAuths (ia : IssuingAccount) (names : List String) : List Authorization :=
  names.filterMap fun n =>
    match ia.AuthorizeIdentity n with
    | .ok a => if a.status = StatusPending then some a else none
    | .error _ => none

/-! ## Concrete fixtures used by witnesses and counterexamples -/

def exChA : Challenge := ⟨"ex-a", "uri-a", "pending"⟩

def exChB : Challenge := ⟨"ex-b", "uri-b", "pending"⟩

/-- A solver with challenge costs A = 2, B = 1. -/
def exSolver : Solver :=
  { Cost := fun cs =>
      if cs = [exChA] then .ok 2 else if cs = [exChB] then .ok 1 else .ok 3
    Solve := fun cs => .ok (cs.map fun _ => ⟨0⟩) }

/-- One authorization with combinations {A}, {B} in that order. -/
def exAuthz : Authorization :=
  ⟨StatusPending, "dns:x", "uri-x", 0, [exChA, exChB], [[0], [1]]⟩

/-- The same authorization with the combinations listed in the other
order. -/
def exAuthzRev : Authorization :=
  ⟨StatusPending, "dns:x", "uri-x", 0, [exChA, exChB], [[1], [0]]⟩

/-- An issuing account on which everything succeeds: every identifier
gets a pending authorization with a single `exChB` combination,
validation succeeds, polls come back valid, issuance succeeds. -/
def exAccount : IssuingAccount :=
  { AuthorizeIdentity := fun n => .ok ⟨StatusPending, n, "u-" ++ n, 0, [exChB], [[0]]⟩
    FetchAuthorization := fun _ _ => .ok ⟨StatusValid, "dns:x", "u", 0, [], []⟩
    ValidateChallenge := fun _ _ => .ok exChB
    IssueCertificate := .ok ⟨[1, 2, 3]⟩ }

/-- Like `exAccount`, except the identifier "bad" probes invalid. -/
def exAccountInvalid : IssuingAccount :=
  { exAccount with
    AuthorizeIdentity := fun n =>
      .ok ⟨if n = "bad" then StatusInvalid else StatusPending,
           n, "u-" ++ n, 0, [exChB], [[0]]⟩ }

/-- A broken solver whose `Solve` succeeds but returns no responses. -/
def exSolverShort : Solver :=
  { Cost := fun _ => .ok 1
    Solve := fun _ => .ok [] }

/-! ## Helper lemmas -/

theorem dropWhile_replicate_append_eq (l : List Char) (k : Nat) :
    List.dropWhile (· = '=') (List.replicate k '=' ++ l)
      = List.dropWhile (· = '=') l := by
  induction k with
  | zero => simp
  | succ k ih => simp [List.replicate_succ, List.dropWhile_cons, ih]

theorem dropWhile_eq_self_of_ne (l : List Char) (h : ∀ c ∈ l, c ≠ '=') :
    List.dropWhile (· = '=') l = l := by
  cases l with
  | nil => rfl
  | cons c t =>
    have hc : c ≠ '=' := h c (List.mem_cons_self c t)
    simp [List.dropWhile_cons, hc]

theorem trimRightEq_append_replicate (l : List Char) (k : Nat)
    (h : ∀ c ∈ l, c ≠ '=') :
    trimRightEq (String.mk (l ++ List.replicate k '=')) = String.mk l := by
  have h2 : ∀ c ∈ l.reverse, c ≠ '=' := fun c hc => h c (List.mem_reverse.mp hc)
  simp only [trimRightEq, String.toList, String.mk]
  rw [List.reverse_append, List.reverse_replicate, dropWhile_replicate_append_eq,
    dropWhile_eq_self_of_ne _ h2, List.reverse_reverse]

theorem b64urlChar_ne_pad (n : Nat) : b64urlChar n ≠ '=' := by
  unfold b64urlChar
  by_cases h : n < b64urlAlphabet.length
  · have hmem : b64urlAlphabet.getD n 'A' ∈ b64urlAlphabet := by
      rw [List.getD_eq_getElem _ _ h]
      exact List.getElem_mem h
    intro heq
    rw [heq] at hmem
    revert hmem
    decide
  · rw [List.getD_eq_default _ _ (Nat.le_of_not_lt h)]
    decide

theorem b64encodeWith_pad_split (alpha : Nat → Char)
    (halpha : ∀ n, alpha n ≠ '=') :
    ∀ (fuel : Nat) (bs : List Nat), bs.length ≤ fuel →
      b64encodeWith alpha true bs
          = b64encodeWith alpha false bs ++ List.replicate (b64padLen bs) '='
        ∧ ∀ c ∈ b64encodeWith alpha false bs, c ≠ '=' := by
  intro fuel
  induction fuel with
  | zero =>
    intro bs hlen
    have : bs = [] := List.eq_nil_of_length_eq_zero (Nat.le_zero.mp hlen)
    subst this
    exact ⟨rfl, by simp [b64encodeWith]⟩
  | succ fuel ih =>
    intro bs hlen
    match bs with
    | [] => exact ⟨rfl, by simp [b64encodeWith]⟩
    | [b1] =>
      refine ⟨by simp [b64encodeWith, b64padLen, List.replicate], ?_⟩
      intro c hc
      simp [b64encodeWith] at hc
      rcases hc with h | h <;> (subst h; exact halpha _)
    | [b1, b2] =>
      refine ⟨by simp [b64encodeWith, b64padLen, List.replicate], ?_⟩
      intro c hc
      simp [b64encodeWith] at hc
      rcases hc with h | h | h <;> (subst h; exact halpha _)
    | b1 :: b2 :: b3 :: rest =>
      have hrest : rest.length ≤ fuel := by
        simp only [List.length_cons] at hlen
        omega
      obtain ⟨ih1, ih2⟩ := ih rest hrest
      constructor
      · simp only [b64encodeWith, b64padLen, ih1, List.cons_append]
      · intro c hc
        simp only [b64encodeWith, List.mem_cons] at hc
        rcases hc with h | h | h | h | h
        · subst h; exact halpha _
        · subst h; exact halpha _
        · subst h; exact halpha _
        · subst h; exact halpha _
        · exact ih2 c h

theorem rawURLEncode_eq_rawSpec (bs : List Nat) :
    RawURLEncodeToString bs = base64URLRawSpec bs := by
  obtain ⟨h1, h2⟩ :=
    b64encodeWith_pad_split b64urlChar b64urlChar_ne_pad bs.length bs le_rfl
  unfold RawURLEncodeToString base64URLEncodeToString base64URLRawSpec
  rw [h1]
  exact trimRightEq_append_replicate _ _ h2

/-! ## Claims -/

/-- C8: for every token `tok` and thumbprint for which the RFC 7638
SHA-256 thumbprint computation succeeded, `KeyAuthz` returns exactly
`tok ++ "." ++ base64url(thumbprint)` in the unpadded base64url form,
which carries no `'='` padding character at all (in particular no
trailing one). -/
theorem c8_key_authz_shape (tok : String) (tp : List Nat) :
    KeyAuthz tok tp = tok ++ "." ++ base64URLRawSpec tp
      ∧ '=' ∉ (base64URLRawSpec tp).toList := by
  obtain ⟨_, h2⟩ :=
    b64encodeWith_pad_split b64urlChar b64urlChar_ne_pad tp.length tp le_rfl
  refine ⟨?_, ?_⟩
  · unfold KeyAuthz
    rw [rawURLEncode_eq_rawSpec]
  · intro hc
    exact h2 '=' (by simpa [base64URLRawSpec, String.toList] using hc) rfl

/-- C9: the client nonce pool is a LIFO stack: from any state, after
`add a` then `add b`, the first `Nonce` pops `b` (leaving the state
after `add a`), the next pops `a` (restoring the original state), and
`Nonce` on the empty stack fails with the `ErrNoNonce` sentinel. -/
theorem c9_nonce_lifo (s : nonceStack) (a b : String) :
    nonceStack.Nonce (nonceStack.add (nonceStack.add s a) b)
        = .ok (b, nonceStack.add s a)
      ∧ nonceStack.Nonce (nonceStack.add s a) = .ok (a, s)
      ∧ nonceStack.Nonce ⟨[]⟩ = .error .noNonce := by
  refine ⟨?_, ?_, rfl⟩ <;>
    simp [nonceStack.Nonce, nonceStack.add]

/-- C5 counterexample: the claim says a second `Cancel` is a permitted,
non-failing operation equivalent to the first.  On a fresh issuer the
first `Cancel` succeeds (closing the channel), but `Cancel` again on
the result is Go's `close` of an already-closed channel, which
panics — so the second call is neither permitted nor non-failing. -/
theorem c5_cancel_not_idempotent :
    Cancel newCancelChan = .ok ⟨true⟩
      ∧ (Cancel newCancelChan).bind Cancel = .error .closeOfClosedChannel := by
  exact ⟨rfl, rfl⟩

/-- C5 amended: `Cancel` may be called at most once: on a not-yet
canceled issuer it succeeds and closes the cancel channel, and a second
`Cancel` after any successful one panics with close-of-closed-channel
(it is not idempotent). -/
theorem c5_cancel_once (c : CancelChan) :
    (c.closed = false → Cancel c = .ok ⟨true⟩)
      ∧ (∀ c2, Cancel c = .ok c2 → Cancel c2 = .error .closeOfClosedChannel) := by
  constructor
  · intro h
    simp [Cancel, h]
  · intro c2 h
    unfold Cancel at h ⊢
    by_cases hc : c.closed
    · simp [hc] at h
    · simp [hc] at h
      rw [← h]
      rfl

/-- C5 amended, witness: on the fresh issuer the first `Cancel`
succeeds and the second panics. -/
theorem c5_cancel_once_witness :
    Cancel newCancelChan = .ok ⟨true⟩
      ∧ Cancel ⟨true⟩ = .error .closeOfClosedChannel :=
  ⟨(c5_cancel_once newCancelChan).1 rfl,
   (c5_cancel_once newCancelChan).2 ⟨true⟩ ((c5_cancel_once newCancelChan).1 rfl)⟩

/-- C7: a registration request carrying a non-nil `Key`, a non-empty
`AuthorizationsURI` or a non-empty `CertificatesURI` — or a resource
tag that is neither `new-reg` nor `reg` — makes `PostRegistration`
fail before any POST is transmitted: the result is an error and the
underlying `Poster` is never invoked. -/
theorem c7_registration_scrub (postResult : Except RegErr Registration)
    (req : Registration)
    (h : req.Key.isSome ∨ req.AuthorizationsURI ≠ "" ∨ req.CertificatesURI ≠ ""
         ∨ (req.Resource ≠ ResourceNewReg ∧ req.Resource ≠ ResourceReg)) :
    (∃ e, (PostRegistration postResult req).1 = .error e)
      ∧ (PostRegistration postResult req).2 = false := by
  unfold PostRegistration
  by_cases hr : req.Resource ≠ ResourceNewReg ∧ req.Resource ≠ ResourceReg
  · rw [if_pos hr]
    exact ⟨⟨_, rfl⟩, rfl⟩
  · rw [if_neg hr]
    by_cases hk : req.Key.isSome
    · rw [if_pos hk]
      exact ⟨⟨_, rfl⟩, rfl⟩
    · rw [if_neg hk]
      by_cases ha : req.AuthorizationsURI ≠ ""
      · rw [if_pos ha]
        exact ⟨⟨_, rfl⟩, rfl⟩
      · rw [if_neg ha]
        by_cases hc : req.CertificatesURI ≠ ""
        · rw [if_pos hc]
          exact ⟨⟨_, rfl⟩, rfl⟩
        · rw [if_neg hc]
          exfalso
          rcases h with h | h | h | h
          · exact hk h
          · exact ha h
          · exact hc h
          · exact hr h

/-- C7 witness: a new-reg request carrying a key fails with the
poster never invoked. -/
theorem c7_registration_scrub_witness :
    (∃ e, (PostRegistration (.ok ⟨ResourceReg, none, [], "", "", ""⟩)
             ⟨ResourceNewReg, some 1, [], "", "", ""⟩).1 = .error e)
      ∧ (PostRegistration (.ok ⟨ResourceReg, none, [], "", "", ""⟩)
           ⟨ResourceNewReg, some 1, [], "", "", ""⟩).2 = false :=
  c7_registration_scrub _ _ (Or.inl rfl)

/-- C6 counterexample: the claim says a request whose `Accept` header
is `*/*` is never rejected with 406.  At a JSON endpoint with a GET
handler, the dispatcher's check `accept != "*/*" && got != accept`
compares the *endpoint's declared* type against `*/*`, not the request
header, so a GET with `Accept: */*` is rejected with 406 even though
the claim's condition (header present, different from the declared
type, and not `*/*`) does not hold. -/
theorem c6_accept_counterexample :
    (serve ⟨JSON, some (.ok (some (.jsonValue "{}"), ⟨0⟩)), none, .ok ()⟩
        ⟨"GET", some "*/*"⟩).status = 406
      ∧ ¬ ((some "*/*" : Option String).isSome
            ∧ "*/*" ≠ JSON ∧ ("*/*" : String) ≠ "*/*") := by
  constructor
  · rfl
  · intro ⟨_, _, hne⟩
    exact hne rfl

/-- C6 amended: for a GET or POST dispatched to an endpoint whose
method handler exists, the request is rejected with 406 Not Acceptable
exactly when the endpoint's declared content type is not `*/*` and the
request's `Accept` header value (the empty string when the header is
absent) differs from the declared type.  In particular `Accept: */*`
and a missing `Accept` are both rejected at an endpoint declaring a
specific type, and endpoints declared `*/*` never reject. -/
theorem c6_accept_check (ep : Endpoint) (r : Request)
    (hm : (r.method = "GET" ∧ ep.get.isSome)
          ∨ (r.method = "POST" ∧ ep.post.isSome)) :
    (serveOutcome ep r = .notAcceptable ep.declared (headerGet r.accept)
        ↔ ep.declared ≠ "*/*" ∧ headerGet r.accept ≠ ep.declared)
      ∧ (ep.declared ≠ "*/*" ∧ headerGet r.accept ≠ ep.declared →
          (serve ep r).status = 406) := by
  have hmain :
      serveOutcome ep r = .notAcceptable ep.declared (headerGet r.accept)
        ↔ ep.declared ≠ "*/*" ∧ headerGet r.accept ≠ ep.declared := by
    rcases hm with ⟨hget, hsome⟩ | ⟨hpost, hsome⟩
    · obtain ⟨handler, hh⟩ := Option.isSome_iff_exists.mp hsome
      have hne : r.method ≠ "HEAD" := by rw [hget]; decide
      have hso : ∃ alt : ServeOutcome,
          (∀ d g, alt ≠ .notAcceptable d g)
          ∧ serveOutcome ep r
              = if ep.declared ≠ "*/*" ∧ headerGet r.accept ≠ ep.declared then
                  ServeOutcome.notAcceptable ep.declared (headerGet r.accept)
                else alt := by
        rcases handler with e | ⟨v, hresp⟩
        · refine ⟨.handlerFailed e, ⟨fun d g h => ServeOutcome.noConfusion h, ?_⟩⟩
          unfold serveOutcome
          rw [if_neg hne, if_pos hget]
          simp only [hh]
        · refine ⟨.handlerOk v hresp, ⟨fun d g h => ServeOutcome.noConfusion h, ?_⟩⟩
          unfold serveOutcome
          rw [if_neg hne, if_pos hget]
          simp only [hh]
      obtain ⟨alt, halt, hso⟩ := hso
      rw [hso]
      by_cases hcond : ep.declared ≠ "*/*" ∧ headerGet r.accept ≠ ep.declared
      · rw [if_pos hcond]
        simp [hcond]
      · rw [if_neg hcond]
        simp [hcond, halt _ _]
    · obtain ⟨handler, hh⟩ := Option.isSome_iff_exists.mp hsome
      have hne : r.method ≠ "HEAD" := by rw [hpost]; decide
      have hne2 : r.method ≠ "GET" := by rw [hpost]; decide
      have hso : ∃ alt : ServeOutcome,
          (∀ d g, alt ≠ .notAcceptable d g)
          ∧ serveOutcome ep r
              = if ep.declared ≠ "*/*" ∧ headerGet r.accept ≠ ep.declared then
                  ServeOutcome.notAcceptable ep.declared (headerGet r.accept)
                else alt := by
        rcases hrr : ep.readRequest with e2 | u
        · refine ⟨.readRequestFailed e2, ⟨fun d g h => ServeOutcome.noConfusion h, ?_⟩⟩
          unfold serveOutcome
          rw [if_neg hne, if_neg hne2, if_pos hpost]
          simp only [hh, hrr]
        · rcases handler with e | ⟨v, hresp⟩
          · refine ⟨.handlerFailed e, ⟨fun d g h => ServeOutcome.noConfusion h, ?_⟩⟩
            unfold serveOutcome
            rw [if_neg hne, if_neg hne2, if_pos hpost]
            simp only [hh, hrr]
          · refine ⟨.handlerOk v hresp, ⟨fun d g h => ServeOutcome.noConfusion h, ?_⟩⟩
            unfold serveOutcome
            rw [if_neg hne, if_neg hne2, if_pos hpost]
            simp only [hh, hrr]
      obtain ⟨alt, halt, hso⟩ := hso
      rw [hso]
      by_cases hcond : ep.declared ≠ "*/*" ∧ headerGet r.accept ≠ ep.declared
      · rw [if_pos hcond]
        simp [hcond]
      · rw [if_neg hcond]
        simp [hcond, halt _ _]
  refine ⟨hmain, fun hc => ?_⟩
  unfold serve
  rw [hmain.mpr hc]
  rfl

/-- C6 amended, witness: at a JSON GET endpoint, `Accept: */*` is
rejected with 406. -/
theorem c6_accept_check_witness :
    (serveOutcome ⟨JSON, some (.ok (some (.jsonValue "{}"), ⟨0⟩)), none, .ok ()⟩
          ⟨"GET", some "*/*"⟩
        = .notAcceptable JSON "*/*"
      ↔ JSON ≠ "*/*" ∧ ("*/*" : String) ≠ JSON)
    ∧ (JSON ≠ "*/*" ∧ ("*/*" : String) ≠ JSON →
        (serve ⟨JSON, some (.ok (some (.jsonValue "{}"), ⟨0⟩)), none, .ok ()⟩
            ⟨"GET", some "*/*"⟩).status = 406) :=
  c6_accept_check ⟨JSON, some (.ok (some (.jsonValue "{}"), ⟨0⟩)), none, .ok ()⟩
    ⟨"GET", some "*/*"⟩ (Or.inl ⟨rfl, rfl⟩)

/-- C10: `ServeCert` wires the certificate-fetch endpoint with declared
content type `application/json`, not `application/pkix-cert`; a GET
with `Accept: application/pkix-cert` is rejected with 406, while a GET
with `Accept: application/json` succeeds and returns the DER bytes
encoded per that `Accept` header — as a JSON base64 string (Go
`encoding/json` marshals `[]byte` as standard base64 in quotes,
newline-terminated) rather than the raw DER bytes. -/
theorem c10_serve_cert_json (der : List Nat) (h : HTTPResponse) :
    (ServeCertEndpoint (.ok (der, h))).declared = JSON
      ∧ JSON ≠ PKIXCert
      ∧ (serve (ServeCertEndpoint (.ok (der, h))) ⟨"GET", some PKIXCert⟩).status = 406
      ∧ serve (ServeCertEndpoint (.ok (der, h))) ⟨"GET", some JSON⟩
          = ⟨if h.StatusCode = 0 then 200 else h.StatusCode, JSON,
             .text ("\"" ++ base64StdEncodeToString der ++ "\"\n")⟩
      ∧ Body.text ("\"" ++ base64StdEncodeToString der ++ "\"\n") ≠ .raw der := by
  refine ⟨rfl, by decide, ?_, ?_, by simp⟩
  · rfl
  · have henc : encodeBody JSON (.byteSlice der)
        = .ok (.text ("\"" ++ base64StdEncodeToString der ++ "\"\n")) := by
      unfold encodeBody
      rw [if_pos (Or.inl rfl)]
    have hwr : serve (ServeCertEndpoint (.ok (der, h))) ⟨"GET", some JSON⟩
        = match encodeBody JSON (.byteSlice der) with
          | .ok b =>
            (⟨if h.StatusCode = 0 then 200 else h.StatusCode, JSON, b⟩ : HTTPReply)
          | .error _ =>
            if h.StatusCode = 0 then writeError ⟨500⟩
            else ⟨h.StatusCode, JSON, .empty⟩ := rfl
    rw [hwr, henc]

theorem bestCombinationGo_allFail (s : Solver) (a : Authorization) :
    ∀ (rest : List (List Nat)) (errs : List Err),
      (∀ cis ∈ rest, ∀ c, s.Cost (combChallenges a cis) ≠ .ok c) →
      ((rest = [] →
          (bestCombinationGo s a rest errs none).1
            = (match errs.getLast? with
               | some e => .error e
               | none => .error .unsolvable))
        ∧ (∀ last, rest.getLast? = some last →
            ∃ e, s.Cost (combChallenges a last) = .error e
              ∧ (bestCombinationGo s a rest errs none).1 = .error e)) := by
  intro rest
  induction rest with
  | nil =>
    intro errs _
    constructor
    · intro _
      cases herrs : errs.getLast? with
      | none => simp [bestCombinationGo, herrs]
      | some e => simp [bestCombinationGo, herrs]
    · intro last hlast
      simp at hlast
  | cons cis rest ih =>
    intro errs h
    have hcis := h cis (List.mem_cons_self _ _)
    cases hc : s.Cost (combChallenges a cis) with
    | ok c => exact absurd hc (hcis c)
    | error e =>
      have hrest : ∀ cis2 ∈ rest, ∀ c, s.Cost (combChallenges a cis2) ≠ .ok c :=
        fun cis2 hm c => h cis2 (List.mem_cons_of_mem _ hm) c
      obtain ⟨ihnil, ihlast⟩ := ih (errs ++ [e]) hrest
      refine ⟨fun hne => absurd hne (List.cons_ne_nil _ _), fun last hlast => ?_⟩
      cases rest with
      | nil =>
        have hl : cis = last := by simpa using hlast
        refine ⟨e, hl ▸ hc, ?_⟩
        have hstep : (bestCombinationGo s a [cis] errs none).1
            = (bestCombinationGo s a [] (errs ++ [e]) none).1 := by
          simp [bestCombinationGo, hc]
        rw [hstep, ihnil rfl]
        simp
      | cons cis2 rest2 =>
        have hlast2 : (cis2 :: rest2).getLast? = some last := by
          rw [← hlast]
          exact List.getLast?_cons_cons.symm
        obtain ⟨e2, he2, hres⟩ := ihlast last hlast2
        refine ⟨e2, he2, ?_⟩
        have hstep : (bestCombinationGo s a (cis :: cis2 :: rest2) errs none).1
            = (bestCombinationGo s a (cis2 :: rest2) (errs ++ [e]) none).1 := by
          simp [bestCombinationGo, hc]
        rw [hstep, hres]

theorem bestCombinationGo_min (s : Solver) (a : Authorization) :
    ∀ (rest : List (List Nat)) (errs : List Err)
      (best : Option (ℚ × List Challenge)),
      ((best = none →
          (∃ cis ∈ rest, ∃ c, s.Cost (combChallenges a cis) = .ok c) →
          ∃ cis ∈ rest, ∃ c, s.Cost (combChallenges a cis) = .ok c
            ∧ (bestCombinationGo s a rest errs none).1
                = .ok (combChallenges a cis)
            ∧ ∀ cis2 ∈ rest, ∀ c2,
                s.Cost (combChallenges a cis2) = .ok c2 → c ≤ c2)
        ∧ (∀ (b : ℚ) (cs0 : List Challenge), best = some (b, cs0) →
            ∃ r, (bestCombinationGo s a rest errs best).1 = .ok r
              ∧ ((r = cs0
                    ∧ ∀ cis2 ∈ rest, ∀ c2,
                        s.Cost (combChallenges a cis2) = .ok c2 → b ≤ c2)
                 ∨ (∃ cis ∈ rest, ∃ c,
                      s.Cost (combChallenges a cis) = .ok c
                        ∧ r = combChallenges a cis ∧ c ≤ b
                        ∧ ∀ cis2 ∈ rest, ∀ c2,
                            s.Cost (combChallenges a cis2) = .ok c2 → c ≤ c2)))) := by
  intro rest
  induction rest with
  | nil =>
    intro errs best
    constructor
    · rintro _ ⟨cis, hm, _⟩
      simp at hm
    · rintro b cs0 rfl
      exact ⟨cs0, rfl, Or.inl ⟨rfl, by simp⟩⟩
  | cons cis rest ih =>
    intro errs best
    constructor
    · rintro rfl hex
      cases hc : s.Cost (combChallenges a cis) with
      | error e =>
        have hex2 : ∃ cis2 ∈ rest, ∃ c, s.Cost (combChallenges a cis2) = .ok c := by
          obtain ⟨cis2, hm, c2, hc2⟩ := hex
          rcases List.mem_cons.mp hm with rfl | hm2
          · rw [hc] at hc2
            cases hc2
          · exact ⟨cis2, hm2, c2, hc2⟩
        obtain ⟨cis2, hm2, c2, hc2, hres, hmin⟩ := (ih (errs ++ [e]) none).1 rfl hex2
        refine ⟨cis2, List.mem_cons_of_mem _ hm2, c2, hc2, ?_, ?_⟩
        · have hstep : (bestCombinationGo s a (cis :: rest) errs none).1
              = (bestCombinationGo s a rest (errs ++ [e]) none).1 := by
            simp [bestCombinationGo, hc]
          rw [hstep, hres]
        · intro cis3 hm3 c3 hc3
          rcases List.mem_cons.mp hm3 with rfl | hm4
          · rw [hc] at hc3
            cases hc3
          · exact hmin cis3 hm4 c3 hc3
      | ok c =>
        have hstep : (bestCombinationGo s a (cis :: rest) errs none).1
            = (bestCombinationGo s a rest errs
                (some (c, combChallenges a cis))).1 := by
          simp [bestCombinationGo, hc]
        obtain ⟨r, hres, hcase⟩ :=
          (ih errs (some (c, combChallenges a cis))).2 c (combChallenges a cis) rfl
        rcases hcase with ⟨hr, hminc⟩ | ⟨cis2, hm2, c2, hc2, hr, hle, hmin2⟩
        · refine ⟨cis, List.mem_cons_self _ _, c, hc, ?_, ?_⟩
          · rw [hstep, hres, hr]
          · intro cis3 hm3 c3 hc3
            rcases List.mem_cons.mp hm3 with rfl | hm4
            · rw [hc] at hc3
              cases hc3
              exact le_refl _
            · exact hminc cis3 hm4 c3 hc3
        · refine ⟨cis2, List.mem_cons_of_mem _ hm2, c2, hc2, ?_, ?_⟩
          · rw [hstep, hres, hr]
          · intro cis3 hm3 c3 hc3
            rcases List.mem_cons.mp hm3 with rfl | hm4
            · rw [hc] at hc3
              cases hc3
              exact hle
            · exact hmin2 cis3 hm4 c3 hc3
    · rintro b cs0 rfl
      cases hc : s.Cost (combChallenges a cis) with
      | error e =>
        have hstep : (bestCombinationGo s a (cis :: rest) errs (some (b, cs0))).1
            = (bestCombinationGo s a rest (errs ++ [e]) (some (b, cs0))).1 := by
          simp [bestCombinationGo, hc]
        obtain ⟨r, hres, hcase⟩ := (ih (errs ++ [e]) (some (b, cs0))).2 b cs0 rfl
        refine ⟨r, by rw [hstep, hres], ?_⟩
        rcases hcase with ⟨hr, hminb⟩ | ⟨cis2, hm2, c2, hc2, hr, hle, hmin2⟩
        · refine Or.inl ⟨hr, ?_⟩
          intro cis3 hm3 c3 hc3
          rcases List.mem_cons.mp hm3 with rfl | hm4
          · rw [hc] at hc3
            cases hc3
          · exact hminb cis3 hm4 c3 hc3
        · refine Or.inr ⟨cis2, List.mem_cons_of_mem _ hm2, c2, hc2, hr, hle, ?_⟩
          intro cis3 hm3 c3 hc3
          rcases List.mem_cons.mp hm3 with rfl | hm4
          · rw [hc] at hc3
            cases hc3
          · exact hmin2 cis3 hm4 c3 hc3
      | ok c =>
        by_cases hlt : c < b
        · have hstep : (bestCombinationGo s a (cis :: rest) errs (some (b, cs0))).1
              = (bestCombinationGo s a rest errs
                  (some (c, combChallenges a cis))).1 := by
            simp [bestCombinationGo, hc, hlt]
          obtain ⟨r, hres, hcase⟩ :=
            (ih errs (some (c, combChallenges a cis))).2 c (combChallenges a cis) rfl
          refine ⟨r, by rw [hstep, hres], Or.inr ?_⟩
          rcases hcase with ⟨hr, hminc⟩ | ⟨cis2, hm2, c2, hc2, hr, hle, hmin2⟩
          · refine ⟨cis, List.mem_cons_self _ _, c, hc, hr, le_of_lt hlt, ?_⟩
            intro cis3 hm3 c3 hc3
            rcases List.mem_cons.mp hm3 with rfl | hm4
            · rw [hc] at hc3
              cases hc3
              exact le_refl _
            · exact hminc cis3 hm4 c3 hc3
          · refine ⟨cis2, List.mem_cons_of_mem _ hm2, c2, hc2, hr,
              le_trans hle (le_of_lt hlt), ?_⟩
            intro cis3 hm3 c3 hc3
            rcases List.mem_cons.mp hm3 with rfl | hm4
            · rw [hc] at hc3
              cases hc3
              exact hle
            · exact hmin2 cis3 hm4 c3 hc3
        · have hble : b ≤ c := le_of_not_lt hlt
          have hstep : (bestCombinationGo s a (cis :: rest) errs (some (b, cs0))).1
              = (bestCombinationGo s a rest errs (some (b, cs0))).1 := by
            simp [bestCombinationGo, hc, hlt]
          obtain ⟨r, hres, hcase⟩ := (ih errs (some (b, cs0))).2 b cs0 rfl
          refine ⟨r, by rw [hstep, hres], ?_⟩
          rcases hcase with ⟨hr, hminb⟩ | ⟨cis2, hm2, c2, hc2, hr, hle, hmin2⟩
          · refine Or.inl ⟨hr, ?_⟩
            intro cis3 hm3 c3 hc3
            rcases List.mem_cons.mp hm3 with rfl | hm4
            · rw [hc] at hc3
              cases hc3
              exact hble
            · exact hminb cis3 hm4 c3 hc3
          · refine Or.inr ⟨cis2, List.mem_cons_of_mem _ hm2, c2, hc2, hr, hle, ?_⟩
            intro cis3 hm3 c3 hc3
            rcases List.mem_cons.mp hm3 with rfl | hm4
            · rw [hc] at hc3
              cases hc3
              exact le_trans hle hble
            · exact hmin2 cis3 hm4 c3 hc3

/-- C1: `bestCombination` returns the challenges of a combination whose
cost is minimal among the combinations whose cost evaluation succeeds
(so for combinations with costs {A = 2, B = 1} it selects B regardless
of order); when every combination's cost evaluation fails it returns
the last cost error (the one of the last combination in the list), and
when there are no combinations at all it returns `ErrUnsolvable`. -/
theorem c1_best_combination (s : Solver) (a : Authorization) :
    (a.combinations = [] →
        (bestCombination s a).1 = .error .unsolvable)
    ∧ ((∃ cis ∈ a.combinations, ∃ c, s.Cost (combChallenges a cis) = .ok c) →
        ∃ cis ∈ a.combinations, ∃ c, s.Cost (combChallenges a cis) = .ok c
          ∧ (bestCombination s a).1 = .ok (combChallenges a cis)
          ∧ ∀ cis2 ∈ a.combinations, ∀ c2,
              s.Cost (combChallenges a cis2) = .ok c2 → c ≤ c2)
    ∧ ((∀ cis ∈ a.combinations, ∀ c, s.Cost (combChallenges a cis) ≠ .ok c) →
        ∀ last, a.combinations.getLast? = some last →
          ∃ e, s.Cost (combChallenges a last) = .error e
            ∧ (bestCombination s a).1 = .error e) := by
  refine ⟨?_, ?_, ?_⟩
  · intro hnil
    unfold bestCombination
    rw [hnil]
    rfl
  · intro hex
    exact (bestCombinationGo_min s a a.combinations [] none).1 rfl hex
  · intro hfail last hlast
    exact (bestCombinationGo_allFail s a a.combinations [] hfail).2 last hlast

/-- C1 witness: with costs {A = 2, B = 1} the combination {B} is
selected, in both combination orders, and the selection is the
computed minimum. -/
theorem c1_best_combination_witness :
    (∃ cis ∈ exAuthz.combinations, ∃ c,
        exSolver.Cost (combChallenges exAuthz cis) = .ok c
          ∧ (bestCombination exSolver exAuthz).1 = .ok (combChallenges exAuthz cis)
          ∧ ∀ cis2 ∈ exAuthz.combinations, ∀ c2,
              exSolver.Cost (combChallenges exAuthz cis2) = .ok c2 → c ≤ c2)
    ∧ (∃ cis ∈ exAuthzRev.combinations, ∃ c,
        exSolver.Cost (combChallenges exAuthzRev cis) = .ok c
          ∧ (bestCombination exSolver exAuthzRev).1
              = .ok (combChallenges exAuthzRev cis)
          ∧ ∀ cis2 ∈ exAuthzRev.combinations, ∀ c2,
              exSolver.Cost (combChallenges exAuthzRev cis2) = .ok c2 → c ≤ c2)
    ∧ (bestCombination exSolver exAuthz).1 = .ok [exChB]
    ∧ (bestCombination exSolver exAuthzRev).1 = .ok [exChB] :=
  ⟨(c1_best_combination exSolver exAuthz).2.1 ⟨[1], by decide, 1, by decide⟩,
   (c1_best_combination exSolver exAuthzRev).2.1 ⟨[1], by decide, 1, by decide⟩,
   by decide, by decide⟩

theorem authorizeIdentitiesGo_events (ia : IssuingAccount) (cancelAt : Option Nat) :
    ∀ (names : List String) (acc : List Authorization) (t : Nat),
      ∀ ev ∈ (authorizeIdentitiesGo ia cancelAt names acc t).2.1,
        ∃ n, ev = .authorizeCall n := by
  intro names
  induction names with
  | nil =>
    intro acc t ev hev
    simp [authorizeIdentitiesGo] at hev
  | cons n rest ih =>
    intro acc t ev hev
    by_cases hcanc : isCanceled cancelAt t
    · simp [authorizeIdentitiesGo, hcanc] at hev
    · cases ha : ia.AuthorizeIdentity n with
      | error e =>
        simp [authorizeIdentitiesGo, hcanc, ha] at hev
        exact ⟨n, hev⟩
      | ok a =>
        by_cases hp : a.status = StatusPending
        · simp [authorizeIdentitiesGo, hcanc, ha, hp] at hev
          rcases hev with rfl | hev
          · exact ⟨n, rfl⟩
          · exact ih _ _ ev hev
        · by_cases hi : a.status = StatusInvalid
          · simp [authorizeIdentitiesGo, hcanc, ha, hp, hi,
              StatusPending, StatusInvalid] at hev
            exact ⟨n, hev⟩
          · by_cases hv : a.status = StatusValid
            · simp [authorizeIdentitiesGo, hcanc, ha, hp, hi, hv,
                StatusPending, StatusInvalid, StatusValid] at hev
              rcases hev with rfl | hev
              · exact ⟨n, rfl⟩
              · exact ih _ _ ev hev
            · simp [authorizeIdentitiesGo, hcanc, ha, hp, hi, hv] at hev
              exact ⟨n, hev⟩

theorem bestCombinationGo_events (s : Solver) (a : Authorization) :
    ∀ (rest : List (List Nat)) (errs : List Err)
      (best : Option (ℚ × List Challenge)),
      ∀ ev ∈ (bestCombinationGo s a rest errs best).2,
        ∃ cs, ev = .costCall cs := by
  intro rest
  induction rest with
  | nil =>
    intro errs best ev hev
    simp [bestCombinationGo] at hev
  | cons cis rest ih =>
    intro errs best ev hev
    cases hc : s.Cost (combChallenges a cis) with
    | error e =>
      simp [bestCombinationGo, hc] at hev
      rcases hev with rfl | hev
      · exact ⟨_, rfl⟩
      · exact ih _ _ ev hev
    | ok c =>
      simp [bestCombinationGo, hc] at hev
      rcases hev with rfl | hev
      · exact ⟨_, rfl⟩
      · exact ih _ _ ev hev

theorem bestChallengesGo_events (s : Solver) :
    ∀ (as : List Authorization) (acc : List Challenge),
      ∀ ev ∈ (bestChallengesGo s as acc).2, ∃ cs, ev = .costCall cs := by
  intro as
  induction as with
  | nil =>
    intro acc ev hev
    simp [bestChallengesGo] at hev
    exact ⟨_, hev⟩
  | cons a rest ih =>
    intro acc ev hev
    rcases hbc : bestCombination s a with ⟨res, evc⟩
    cases res with
    | error e =>
      simp [bestChallengesGo, hbc] at hev
      obtain ⟨cs, hcs⟩ := bestCombinationGo_events s a a.combinations [] none ev
        (by rw [show (bestCombinationGo s a a.combinations [] none).2 = evc from
              congrArg Prod.snd hbc]; exact hev)
      exact ⟨cs, hcs⟩
    | ok cs0 =>
      simp [bestChallengesGo, hbc] at hev
      rcases hev with hev | hev
      · exact bestCombinationGo_events s a a.combinations [] none ev
          (by rw [show (bestCombinationGo s a a.combinations [] none).2 = evc from
                congrArg Prod.snd hbc]; exact hev)
      · exact ih _ ev hev

theorem notifyLoop_events (ia : IssuingAccount) (cancelAt : Option Nat) :
    ∀ (l : List (Challenge × Response)) (t : Nat),
      ∀ ev ∈ (notifyLoop ia cancelAt l t).2.1, ∃ u, ev = .validateCall u := by
  intro l
  induction l with
  | nil =>
    intro t ev hev
    simp [notifyLoop] at hev
  | cons p rest ih =>
    intro t ev hev
    obtain ⟨ch, resp⟩ := p
    by_cases hcanc : isCanceled cancelAt t
    · simp [notifyLoop, hcanc] at hev
    · cases hvc : ia.ValidateChallenge ch.uri resp with
      | error e =>
        simp [notifyLoop, hcanc, hvc] at hev
        exact ⟨_, hev⟩
      | ok ch2 =>
        by_cases hst : ch2.status = StatusInvalid
        · simp [notifyLoop, hcanc, hvc, hst] at hev
          exact ⟨_, hev⟩
        · simp [notifyLoop, hcanc, hvc, hst] at hev
          rcases hev with rfl | hev
          · exact ⟨_, rfl⟩
          · exact ih _ ev hev

theorem waitAuthorizations_events (ia : IssuingAccount) (cancelAt : Option Nat) :
    ∀ (fuel : Nat) (as : List Authorization) (t : Nat),
      ∀ ev ∈ (waitAuthorizations ia cancelAt fuel as t).2.1,
        ∃ u, ev = .fetchCall u := by
  intro fuel
  induction fuel with
  | zero =>
    intro as t ev hev
    simp [waitAuthorizations] at hev
  | succ fuel ih =>
    intro as t ev hev
    cases hlast : as.getLast? with
    | none => simp [waitAuthorizations, hlast] at hev
    | some top =>
      by_cases hcanc : isCanceled cancelAt t
      · simp [waitAuthorizations, hlast, hcanc] at hev
      · cases hfa : ia.FetchAuthorization (t + 1) top.uri with
        | error e =>
          simp [waitAuthorizations, hlast, hcanc, hfa] at hev
          exact ⟨_, hev⟩
        | ok a =>
          by_cases hinv : a.status = StatusInvalid
          · simp [waitAuthorizations, hlast, hcanc, hfa, hinv] at hev
            exact ⟨_, hev⟩
          · by_cases hcanc2 : isCanceled cancelAt (t + 2)
            · simp [waitAuthorizations, hlast, hcanc, hfa, hinv, hcanc2] at hev
              exact ⟨_, hev⟩
            · simp [waitAuthorizations, hlast, hcanc, hfa, hinv, hcanc2] at hev
              rcases hev with rfl | hev
              · exact ⟨_, rfl⟩
              · exact ih _ _ ev hev

theorem stopCount_eq_zero_of_shape (tr : List Event)
    (h : ∀ ev ∈ tr, ¬ ev.isStopCall) : stopCount tr = 0 :=
  List.countP_eq_zero.mpr h

theorem solverIssueCount_eq_zero_of_shape (tr : List Event)
    (h : ∀ ev ∈ tr, ¬ ev.isSolverOrIssueCall) : solverIssueCount tr = 0 :=
  List.countP_eq_zero.mpr h

theorem authorizeCall_not_stop (n : String) :
    ¬ (Event.authorizeCall n).isStopCall := by
  simp [Event.isStopCall]

theorem notifyLoop_stopCount (ia : IssuingAccount) (cancelAt : Option Nat)
    (l : List (Challenge × Response)) (t : Nat) :
    stopCount (notifyLoop ia cancelAt l t).2.1 = 0 := by
  refine stopCount_eq_zero_of_shape _ (fun ev hev => ?_)
  obtain ⟨u, rfl⟩ := notifyLoop_events ia cancelAt l t ev hev
  simp [Event.isStopCall]

theorem authorizeIdentities_stopCount (ia : IssuingAccount)
    (cancelAt : Option Nat) (names : List String) (t : Nat) :
    stopCount (authorizeIdentities ia cancelAt names t).2.1 = 0 := by
  refine stopCount_eq_zero_of_shape _ (fun ev hev => ?_)
  obtain ⟨n, rfl⟩ := authorizeIdentitiesGo_events ia cancelAt names [] t ev hev
  simp [Event.isStopCall]

theorem authorizeIdentities_solverIssueCount (ia : IssuingAccount)
    (cancelAt : Option Nat) (names : List String) (t : Nat) :
    solverIssueCount (authorizeIdentities ia cancelAt names t).2.1 = 0 := by
  refine solverIssueCount_eq_zero_of_shape _ (fun ev hev => ?_)
  obtain ⟨n, rfl⟩ := authorizeIdentitiesGo_events ia cancelAt names [] t ev hev
  simp [Event.isSolverOrIssueCall]

theorem bestChallenges_stopCount (s : Solver) (as : List Authorization) :
    stopCount (bestChallenges s as).2 = 0 := by
  refine stopCount_eq_zero_of_shape _ (fun ev hev => ?_)
  obtain ⟨cs, rfl⟩ := bestChallengesGo_events s as [] ev hev
  simp [Event.isStopCall]

theorem waitAuthorizations_stopCount (ia : IssuingAccount)
    (cancelAt : Option Nat) (fuel : Nat) (as : List Authorization) (t : Nat) :
    stopCount (waitAuthorizations ia cancelAt fuel as t).2.1 = 0 := by
  refine stopCount_eq_zero_of_shape _ (fun ev hev => ?_)
  obtain ⟨u, rfl⟩ := waitAuthorizations_events ia cancelAt fuel as t ev hev
  simp [Event.isStopCall]

theorem stopCount_append (l1 l2 : List Event) :
    stopCount (l1 ++ l2) = stopCount l1 + stopCount l2 :=
  List.countP_append _ _ _

theorem stopCount_cons (e : Event) (l : List Event) :
    stopCount (e :: l) = stopCount l + (if e.isStopCall then 1 else 0) :=
  List.countP_cons _ _ _

/-- After a successful `Solve`, `startSolver` records exactly one stop
invocation when it fails (the deferred `errStop`), and none when it
succeeds (the live `stop` is handed to the caller). -/
theorem startSolver_stopCount (ia : IssuingAccount) (cancelAt : Option Nat)
    (s : Solver) (cs : List Challenge) (t : Nat) (resps : List Response)
    (hs : s.Solve cs = .ok resps) :
    ((∃ e, (startSolver ia cancelAt s cs t).1 = .error e)
        ∧ stopCount (startSolver ia cancelAt s cs t).2.1 = 1)
    ∨ ((startSolver ia cancelAt s cs t).1 = .ok ()
        ∧ stopCount (startSolver ia cancelAt s cs t).2.1 = 0) := by
  unfold startSolver
  rw [hs]
  by_cases hlen : resps.length ≠ cs.length
  · simp only [if_pos hlen]
    exact Or.inl ⟨⟨Err.solverBug cs.length resps.length, rfl⟩, rfl⟩
  · simp only [if_neg hlen]
    rcases hnl : notifyLoop ia cancelAt (cs.zip resps) t with ⟨res, ev, t2⟩
    have hev0 : stopCount ev = 0 := by
      have h2 := notifyLoop_stopCount ia cancelAt (cs.zip resps) t
      rw [hnl] at h2
      exact h2
    cases res with
    | error e =>
      simp only [hnl]
      refine Or.inl (And.intro ⟨e, rfl⟩ ?_)
      show stopCount (Event.solveCall cs :: (ev ++ [Event.stopCall])) = 1
      rw [stopCount_cons, stopCount_append, hev0]
      rfl
    | ok u =>
      simp only [hnl]
      refine Or.inr (And.intro ?_ ?_)
      · trivial
      · show stopCount (Event.solveCall cs :: ev) = 0
        rw [stopCount_cons, hev0]
        rfl

/-- C2: on every completion path of `AuthorizeAndIssue` on which the
solver's `Solve` call succeeded — later failure (validation error,
invalid challenge, polling failure), cancellation, or successful
issuance — the trace records exactly one invocation of the solver's
`stop` function: never zero and never two. -/
theorem c2_stop_called_exactly_once (ia : IssuingAccount) (s : Solver)
    (cancelAt : Option Nat) (names : List String) (fuel : Nat)
    (as : List Authorization) (ev1 : List Event) (t1 : Nat)
    (cs : List Challenge) (ev2 : List Event) (resps : List Response)
    (h1 : authorizeIdentities ia cancelAt names 0 = (.ok as, ev1, t1))
    (h2 : as ≠ [])
    (h3 : bestChallenges s as = (.ok cs, ev2))
    (h4 : s.Solve cs = .ok resps) :
    stopCount (AuthorizeAndIssue ia s cancelAt names fuel).2 = 1 := by
  have hev1 : stopCount ev1 = 0 := by
    have := authorizeIdentities_stopCount ia cancelAt names 0
    rw [h1] at this
    exact this
  have hev2 : stopCount ev2 = 0 := by
    have := bestChallenges_stopCount s as
    rw [h3] at this
    exact this
  have hempty : as.isEmpty = false := by
    cases as with
    | nil => exact absurd rfl h2
    | cons a rest => rfl
  unfold AuthorizeAndIssue
  simp only [h1, hempty, Bool.false_eq_true, if_false, h3]
  rcases hss : startSolver ia cancelAt s cs t1 with ⟨res3, ev3, t2⟩
  have hsplit := startSolver_stopCount ia cancelAt s cs t1 resps h4
  rw [hss] at hsplit
  cases res3 with
  | error e =>
    have hev3 : stopCount ev3 = 1 := by
      rcases hsplit with ⟨_, hc⟩ | ⟨hok, _⟩
      · exact hc
      · simp at hok
    simp only [hss]
    show stopCount (ev1 ++ ev2 ++ ev3) = 1
    rw [stopCount_append, stopCount_append, hev1, hev2, hev3]
  | ok u =>
    have hev3 : stopCount ev3 = 0 := by
      rcases hsplit with ⟨⟨e, he⟩, _⟩ | ⟨_, hc⟩
      · simp at he
      · exact hc
    rcases hw : waitAuthorizations ia cancelAt fuel as t2 with ⟨res4, ev4, t3⟩
    have hev4 : stopCount ev4 = 0 := by
      have h5 := waitAuthorizations_stopCount ia cancelAt fuel as t2
      rw [hw] at h5
      exact h5
    cases res4 with
    | error e =>
      simp only [hss, hw]
      show stopCount (ev1 ++ ev2 ++ ev3 ++ ev4 ++ [Event.stopCall]) = 1
      rw [stopCount_append, stopCount_append, stopCount_append, stopCount_append,
        hev1, hev2, hev3, hev4]
      rfl
    | ok u2 =>
      simp only [hss, hw]
      show stopCount (ev1 ++ ev2 ++ ev3 ++ ev4 ++ [Event.issueCall, Event.stopCall]) = 1
      rw [stopCount_append, stopCount_append, stopCount_append, stopCount_append,
        hev1, hev2, hev3, hev4]
      rfl

/-- C2 witness: a full successful run on the example account and
solver records exactly one `stop` invocation. -/
theorem c2_stop_called_exactly_once_witness :
    stopCount (AuthorizeAndIssue exAccount exSolver none ["a"] 2).2 = 1 :=
  c2_stop_called_exactly_once exAccount exSolver none ["a"] 2
    [⟨StatusPending, "a", "u-a", 0, [exChB], [[0]]⟩]
    [.authorizeCall "a"] 1
    [exChB] [.costCall [exChB], .costCall [exChB]] [⟨0⟩]
    (by decide) (by decide) (by decide) (by decide)

/-- C3 counterexample: the claim says that on a response-count mismatch
the returned `stop` function is NOT called.  With a solver whose
`Solve` succeeds but returns zero responses for one challenge, the run
fails with the solver-bug error as claimed — but the deferred
`errStop()` in `startSolver` still points at the solver's `stop`, so
`stop` IS invoked (exactly once), refuting the "not called" part. -/
theorem c3_stop_not_called_counterexample :
    (AuthorizeAndIssue exAccount exSolverShort none ["a"] 2).1
        = .error (.solverBug 1 0)
      ∧ stopCount (AuthorizeAndIssue exAccount exSolverShort none ["a"] 2).2 = 1 :=
  ⟨by decide, by decide⟩

/-- C3 amended: when `Solve` succeeds but the response count differs
from the challenge count, the orchestrator fails with the solver-bug
error and the returned `stop` function IS called — exactly once, by
the deferred `errStop()` installed right after the successful
`Solve`. -/
theorem c3_solver_bug_stop_called (ia : IssuingAccount) (cancelAt : Option Nat)
    (s : Solver) (cs : List Challenge) (t : Nat) (resps : List Response)
    (hs : s.Solve cs = .ok resps) (hlen : resps.length ≠ cs.length) :
    (startSolver ia cancelAt s cs t).1 = .error (.solverBug cs.length resps.length)
      ∧ stopCount (startSolver ia cancelAt s cs t).2.1 = 1 := by
  unfold startSolver
  rw [hs]
  simp only [if_pos hlen]
  refine ⟨?_, ?_⟩ <;> trivial

/-- C3 amended, witness: the zero-response solver on one challenge. -/
theorem c3_solver_bug_stop_called_witness :
    (startSolver exAccount none exSolverShort [exChB] 0).1
        = .error (.solverBug 1 0)
      ∧ stopCount (startSolver exAccount none exSolverShort [exChB] 0).2.1 = 1 :=
  c3_solver_bug_stop_called exAccount none exSolverShort [exChB] 0 []
    (by decide) (by decide)

theorem authorizeIdentitiesGo_invalid (ia : IssuingAccount) :
    ∀ (names : List String) (acc : List Authorization) (t : Nat),
      (∀ n ∈ names, ∃ a, ia.AuthorizeIdentity n = .ok a
          ∧ (a.status = StatusPending ∨ a.status = StatusValid
             ∨ a.status = StatusInvalid)) →
      (∃ n ∈ names, ∃ a, ia.AuthorizeIdentity n = .ok a
          ∧ a.status = StatusInvalid) →
      ∃ n ∈ names, (∃ a, ia.AuthorizeIdentity n = .ok a ∧ a.status = StatusInvalid)
        ∧ (authorizeIdentitiesGo ia none names acc t).1
            = .error (.authzInvalid n) := by
  intro names
  induction names with
  | nil =>
    rintro acc t _ ⟨n, hm, _⟩
    simp at hm
  | cons n rest ih =>
    rintro acc t hok hinv
    obtain ⟨a, ha, hst⟩ := hok n (List.mem_cons_self _ _)
    have hok2 : ∀ n2 ∈ rest, ∃ a, ia.AuthorizeIdentity n2 = .ok a
        ∧ (a.status = StatusPending ∨ a.status = StatusValid
           ∨ a.status = StatusInvalid) :=
      fun n2 hm => hok n2 (List.mem_cons_of_mem _ hm)
    rcases hst with hp | hv | hi
    · have hinv2 : ∃ n2 ∈ rest, ∃ a2, ia.AuthorizeIdentity n2 = .ok a2
          ∧ a2.status = StatusInvalid := by
        obtain ⟨n2, hm2, a2, ha2, hi2⟩ := hinv
        rcases List.mem_cons.mp hm2 with rfl | hm3
        · rw [ha] at ha2
          cases ha2
          exact absurd (hp.symm.trans hi2) (by decide)
        · exact ⟨n2, hm3, a2, ha2, hi2⟩
      obtain ⟨n2, hm2, hinvw, hres⟩ := ih (acc ++ [a]) (t + 1) hok2 hinv2
      refine ⟨n2, List.mem_cons_of_mem _ hm2, hinvw, ?_⟩
      have hstep : (authorizeIdentitiesGo ia none (n :: rest) acc t).1
          = (authorizeIdentitiesGo ia none rest (acc ++ [a]) (t + 1)).1 := by
        simp [authorizeIdentitiesGo, isCanceled, ha, hp]
      rw [hstep, hres]
    · have hinv2 : ∃ n2 ∈ rest, ∃ a2, ia.AuthorizeIdentity n2 = .ok a2
          ∧ a2.status = StatusInvalid := by
        obtain ⟨n2, hm2, a2, ha2, hi2⟩ := hinv
        rcases List.mem_cons.mp hm2 with rfl | hm3
        · rw [ha] at ha2
          cases ha2
          exact absurd (hv.symm.trans hi2) (by decide)
        · exact ⟨n2, hm3, a2, ha2, hi2⟩
      obtain ⟨n2, hm2, hinvw, hres⟩ := ih acc (t + 1) hok2 hinv2
      refine ⟨n2, List.mem_cons_of_mem _ hm2, hinvw, ?_⟩
      have hstep : (authorizeIdentitiesGo ia none (n :: rest) acc t).1
          = (authorizeIdentitiesGo ia none rest acc (t + 1)).1 := by
        simp [authorizeIdentitiesGo, isCanceled, ha, hv,
          StatusPending, StatusValid, StatusInvalid]
      rw [hstep, hres]
    · refine ⟨n, List.mem_cons_self _ _, ⟨a, ha, hi⟩, ?_⟩
      simp [authorizeIdentitiesGo, isCanceled, ha, hi,
        StatusPending, StatusInvalid]

theorem authorizeIdentitiesGo_pendingValid (ia : IssuingAccount) :
    ∀ (names : List String) (acc : List Authorization) (t : Nat),
      (∀ n ∈ names, ∃ a, ia.AuthorizeIdentity n = .ok a
          ∧ (a.status = StatusPending ∨ a.status = StatusValid)) →
      (authorizeIdentitiesGo ia none names acc t).1
        = .ok (acc ++ pendingAuths ia names) := by
  intro names
  induction names with
  | nil =>
    intro acc t _
    simp [authorizeIdentitiesGo, pendingAuths]
  | cons n rest ih =>
    intro acc t hok
    obtain ⟨a, ha, hst⟩ := hok n (List.mem_cons_self _ _)
    have hok2 : ∀ n2 ∈ rest, ∃ a, ia.AuthorizeIdentity n2 = .ok a
        ∧ (a.status = StatusPending ∨ a.status = StatusValid) :=
      fun n2 hm => hok n2 (List.mem_cons_of_mem _ hm)
    rcases hst with hp | hv
    · have hstep : (authorizeIdentitiesGo ia none (n :: rest) acc t).1
          = (authorizeIdentitiesGo ia none rest (acc ++ [a]) (t + 1)).1 := by
        simp [authorizeIdentitiesGo, isCanceled, ha, hp]
      have hpa : pendingAuths ia (n :: rest) = a :: pendingAuths ia rest := by
        simp [pendingAuths, ha, hp]
      rw [hstep, ih (acc ++ [a]) (t + 1) hok2, hpa]
      simp
    · have hstep : (authorizeIdentitiesGo ia none (n :: rest) acc t).1
          = (authorizeIdentitiesGo ia none rest acc (t + 1)).1 := by
        simp [authorizeIdentitiesGo, isCanceled, ha, hv,
          StatusPending, StatusValid, StatusInvalid]
      have hpa : pendingAuths ia (n :: rest) = pendingAuths ia rest := by
        simp [pendingAuths, ha, hv, StatusPending, StatusValid]
      rw [hstep, ih acc (t + 1) hok2, hpa]

theorem authorizeIdentitiesGo_badStatus (ia : IssuingAccount) :
    ∀ (names : List String) (acc : List Authorization) (t : Nat),
      (∀ n ∈ names, ∃ a, ia.AuthorizeIdentity n = .ok a) →
      (∃ n ∈ names, ∃ a, ia.AuthorizeIdentity n = .ok a
          ∧ a.status ≠ StatusPending ∧ a.status ≠ StatusValid) →
      ∃ e, (authorizeIdentitiesGo ia none names acc t).1 = .error e := by
  intro names
  induction names with
  | nil =>
    rintro acc t _ ⟨n, hm, _⟩
    simp at hm
  | cons n rest ih =>
    rintro acc t hok hbad
    obtain ⟨a, ha⟩ := hok n (List.mem_cons_self _ _)
    have hok2 : ∀ n2 ∈ rest, ∃ a, ia.AuthorizeIdentity n2 = .ok a :=
      fun n2 hm => hok n2 (List.mem_cons_of_mem _ hm)
    by_cases hp : a.status = StatusPending
    · have hbad2 : ∃ n2 ∈ rest, ∃ a2, ia.AuthorizeIdentity n2 = .ok a2
          ∧ a2.status ≠ StatusPending ∧ a2.status ≠ StatusValid := by
        obtain ⟨n2, hm2, a2, ha2, hb1, hb2⟩ := hbad
        rcases List.mem_cons.mp hm2 with rfl | hm3
        · rw [ha] at ha2
          cases ha2
          exact absurd hp hb1
        · exact ⟨n2, hm3, a2, ha2, hb1, hb2⟩
      obtain ⟨e, hres⟩ := ih (acc ++ [a]) (t + 1) hok2 hbad2
      refine ⟨e, ?_⟩
      have hstep : (authorizeIdentitiesGo ia none (n :: rest) acc t).1
          = (authorizeIdentitiesGo ia none rest (acc ++ [a]) (t + 1)).1 := by
        simp [authorizeIdentitiesGo, isCanceled, ha, hp]
      rw [hstep, hres]
    · by_cases hi : a.status = StatusInvalid
      · refine ⟨.authzInvalid n, ?_⟩
        simp [authorizeIdentitiesGo, isCanceled, ha, hp, hi,
          StatusPending, StatusInvalid]
      · by_cases hv : a.status = StatusValid
        · have hbad2 : ∃ n2 ∈ rest, ∃ a2, ia.AuthorizeIdentity n2 = .ok a2
              ∧ a2.status ≠ StatusPending ∧ a2.status ≠ StatusValid := by
            obtain ⟨n2, hm2, a2, ha2, hb1, hb2⟩ := hbad
            rcases List.mem_cons.mp hm2 with rfl | hm3
            · rw [ha] at ha2
              cases ha2
              exact absurd hv hb2
            · exact ⟨n2, hm3, a2, ha2, hb1, hb2⟩
          obtain ⟨e, hres⟩ := ih acc (t + 1) hok2 hbad2
          refine ⟨e, ?_⟩
          have hstep : (authorizeIdentitiesGo ia none (n :: rest) acc t).1
              = (authorizeIdentitiesGo ia none rest acc (t + 1)).1 := by
            simp [authorizeIdentitiesGo, isCanceled, ha, hp, hi, hv,
              StatusPending, StatusValid, StatusInvalid]
          rw [hstep, hres]
        · refine ⟨.unknownStatus n a.status, ?_⟩
          simp [authorizeIdentitiesGo, isCanceled, ha, hp, hi, hv]

/-- When `authorizeIdentities` fails, `AuthorizeAndIssue` returns its
error with its trace: no best-challenge selection, no solver start, no
issuance happens. -/
theorem AuthorizeAndIssue_authz_error (ia : IssuingAccount) (s : Solver)
    (cancelAt : Option Nat) (names : List String) (fuel : Nat)
    (e : Err) (ev : List Event) (t : Nat)
    (h : authorizeIdentities ia cancelAt names 0 = (.error e, ev, t)) :
    AuthorizeAndIssue ia s cancelAt names fuel = (.error e, ev) := by
  unfold AuthorizeAndIssue
  simp only [h]

/-- C4: identifiers whose probe reports status `invalid` make the whole
issuance fail with the error naming that identifier, before the solver
is ever invoked (no `Cost`, `Solve`, `stop`) and before any issuance
request; identifiers with status `valid` are skipped and `pending` ones
are collected (in probe order); any status other than these also fails
the issuance with the solver never invoked. -/
theorem c4_invalid_authorization_failfast (ia : IssuingAccount) (s : Solver)
    (names : List String) (fuel : Nat) :
    ((∀ n ∈ names, ∃ a, ia.AuthorizeIdentity n = .ok a
         ∧ (a.status = StatusPending ∨ a.status = StatusValid
            ∨ a.status = StatusInvalid)) →
      (∃ n ∈ names, ∃ a, ia.AuthorizeIdentity n = .ok a
          ∧ a.status = StatusInvalid) →
      ∃ n ∈ names, (∃ a, ia.AuthorizeIdentity n = .ok a ∧ a.status = StatusInvalid)
        ∧ (AuthorizeAndIssue ia s none names fuel).1 = .error (.authzInvalid n)
        ∧ solverIssueCount (AuthorizeAndIssue ia s none names fuel).2 = 0)
    ∧ ((∀ n ∈ names, ∃ a, ia.AuthorizeIdentity n = .ok a
           ∧ (a.status = StatusPending ∨ a.status = StatusValid)) →
        (authorizeIdentities ia none names 0).1 = .ok (pendingAuths ia names))
    ∧ ((∀ n ∈ names, ∃ a, ia.AuthorizeIdentity n = .ok a) →
        (∃ n ∈ names, ∃ a, ia.AuthorizeIdentity n = .ok a
            ∧ a.status ≠ StatusPending ∧ a.status ≠ StatusValid) →
        (∃ e, (AuthorizeAndIssue ia s none names fuel).1 = .error e)
          ∧ solverIssueCount (AuthorizeAndIssue ia s none names fuel).2 = 0) := by
  refine ⟨?_, ?_, ?_⟩
  · intro hok hinv
    obtain ⟨n, hm, hinvw, hres⟩ :=
      authorizeIdentitiesGo_invalid ia names [] 0 hok hinv
    rcases hai : authorizeIdentities ia none names 0 with ⟨res, ev, t⟩
    have hresev : res = .error (.authzInvalid n) := by
      have h2 : (authorizeIdentities ia none names 0).1 = res := by rw [hai]
      rw [← h2]
      exact hres
    have haai := AuthorizeAndIssue_authz_error ia s none names fuel
      (.authzInvalid n) ev t (by rw [hai, hresev])
    refine ⟨n, hm, hinvw, by rw [haai], ?_⟩
    rw [haai]
    have hcount := authorizeIdentities_solverIssueCount ia none names 0
    rw [hai] at hcount
    exact hcount
  · intro hok
    exact authorizeIdentitiesGo_pendingValid ia names [] 0 hok
  · intro hok hbad
    obtain ⟨e, hres⟩ := authorizeIdentitiesGo_badStatus ia names [] 0 hok hbad
    rcases hai : authorizeIdentities ia none names 0 with ⟨res, ev, t⟩
    have hresev : res = .error e := by
      have h2 : (authorizeIdentities ia none names 0).1 = res := by rw [hai]
      rw [← h2]
      exact hres
    have haai := AuthorizeAndIssue_authz_error ia s none names fuel
      e ev t (by rw [hai, hresev])
    refine ⟨⟨e, by rw [haai]⟩, ?_⟩
    rw [haai]
    have hcount := authorizeIdentities_solverIssueCount ia none names 0
    rw [hai] at hcount
    exact hcount

/-- C4 witness: with identifiers "a" (pending) and "bad" (invalid),
the issuance fails naming an invalid identifier and never touches the
solver or issues. -/
theorem c4_invalid_authorization_failfast_witness :
    ∃ n ∈ ["a", "bad"],
      (∃ a, exAccountInvalid.AuthorizeIdentity n = .ok a
          ∧ a.status = StatusInvalid)
        ∧ (AuthorizeAndIssue exAccountInvalid exSolver none ["a", "bad"] 2).1
            = .error (.authzInvalid n)
        ∧ solverIssueCount
            (AuthorizeAndIssue exAccountInvalid exSolver none ["a", "bad"] 2).2 = 0 :=
  (c4_invalid_authorization_failfast exAccountInvalid exSolver ["a", "bad"] 2).1
    (by
      intro n hn
      fin_cases hn
      · exact ⟨⟨StatusPending, "a", "u-a", 0, [exChB], [[0]]⟩, by decide, by decide⟩
      · exact ⟨⟨StatusInvalid, "bad", "u-bad", 0, [exChB], [[0]]⟩,
          by decide, by decide⟩)
    ⟨"bad", by decide,
      ⟨StatusInvalid, "bad", "u-bad", 0, [exChB], [[0]]⟩, by decide, by decide⟩

end AcmeGo
